import Mathlib

/-!
# Verification of the TLScanner address-enumeration and probe pipeline

Shallow embedding of the TLScanner source (TypeScript) in Lean 4:

* `src/utils/next-ip.ts` — `nextIP`, `expandIPv6`, `bigIntToIPv6`
* `src/utils/validate-domain-name.ts` — `validateDomainName`, `iterate`
  (line enumerator with CIDR expansion), `iterateAddr` (infinite walk)
* `src/scanner/scanner.service.ts` — `scanTLS`, `isFeasible`,
  `formatScanResult`
* `src/app.service.ts` — output file header, worker write loop

Machine numbers are modelled as `Nat`/`Int` with explicit bounds checks
mirroring the JavaScript code (JS bitwise ops coerce through unsigned
32-bit, written here as `% 2 ^ 32`).  Strings are modelled as `List Char`
with structural-recursive helpers so that every definition evaluates
inside the kernel.
-/

/-! ## IPv4 arithmetic (`src/utils/next-ip.ts`, `nextIP`, IPv4 branch)

The source computes
`((parts[0] << 24) | (parts[1] << 16) | (parts[2] << 8) | parts[3]) >>> 0`;
the trailing `>>> 0` reinterprets the signed 32-bit result as unsigned,
i.e. the value modulo `2 ^ 32`. -/

def ipv4Value (a b c d : Nat) : Nat :=
  ((a <<< 24) ||| (b <<< 16) ||| (c <<< 8) ||| d) % 2 ^ 32

/-- One quadruple of octets, as produced by `ip.split(".").map(Number)`. -/
abbrev Quad : Type := Nat × Nat × Nat × Nat

/-- `nextIP` (IPv4 branch): value ± 1 with the explicit
`value < 0 || value > 0xffffffff` bounds check, then re-extraction of the
four octets by `(value >>> k) & 0xff`. -/
def nextIPv4 (a b c d : Nat) (increment : Bool) : Option Quad :=
  let value : Int := (ipv4Value a b c d : Int)
  let value2 : Int := if increment then value + 1 else value - 1
  if value2 < 0 ∨ value2 > 0xffffffff then none
  else
    let v : Nat := value2.toNat
    some ((v >>> 24) &&& 0xff, (v >>> 16) &&& 0xff, (v >>> 8) &&& 0xff, v &&& 0xff)

/-- Value-level view of the IPv4 step used in proofs: the packed 32-bit
value moves by one and the walk stops at the `[0, 2^32-1]` boundary. -/
def nextVal (value : Nat) (increment : Bool) : Option Nat :=
  if increment then
    if value + 1 > 0xffffffff then none else some (value + 1)
  else
    if value = 0 then none else some (value - 1)

/-- Octet extraction `(v >>> 24) & 0xff, …` as plain division/remainder. -/
def unpackQuad (v : Nat) : Quad :=
  (v / 2 ^ 24 % 2 ^ 8, v / 2 ^ 16 % 2 ^ 8, v / 2 ^ 8 % 2 ^ 8, v % 2 ^ 8)

example : nextIPv4 10 0 0 5 true = some (10, 0, 0, 6) := by decide
example : nextIPv4 255 255 255 255 true = none := by decide
example : nextIPv4 0 0 0 0 false = none := by decide
example : nextIPv4 10 0 0 0 false = some (9, 255, 255, 255) := by decide

/-! ## Single-address infinite walk (`src/utils/validate-domain-name.ts`,
`iterateAddr`, literal-IP branch)

The generator first yields the seed, then loops forever:
even iterations step the low watermark down (`nextIP(lowIP, false) || lowIP`),
odd iterations step the high watermark up; a `null` step leaves the
watermark unchanged (the JS `||` fallback).  We model the first `n` loop
iterations. -/

def stepQuad (q : Quad) (increment : Bool) : Quad :=
  (nextIPv4 q.1 q.2.1 q.2.2.1 q.2.2.2 increment).getD q

def walkFromQ : Nat → Nat → Quad → Quad → List Quad
  | 0, _, _, _ => []
  | n + 1, i, low, high =>
    if i % 2 = 0 then
      let l := stepQuad low false
      l :: walkFromQ n (i + 1) l high
    else
      let h := stepQuad high true
      h :: walkFromQ n (i + 1) low h

/-- The first `1 + n` addresses yielded by `iterateAddr` for a literal
IPv4 seed: the seed itself, then `n` alternating down/up steps. -/
def iterateAddr (seed : Quad) (n : Nat) : List Quad :=
  seed :: walkFromQ n 0 seed seed

/-- Value-level mirror of the walk body, used in proofs. -/
def walkFromV : Nat → Nat → Nat → Nat → List Nat
  | 0, _, _, _ => []
  | n + 1, i, low, high =>
    if i % 2 = 0 then
      let l := (nextVal low false).getD low
      l :: walkFromV n (i + 1) l high
    else
      let h := (nextVal high true).getD high
      h :: walkFromV n (i + 1) low h

/-- `k` down/up pairs of the value-level walk. -/
def walkPairsV : Nat → Nat → Nat → List Nat
  | 0, _, _ => []
  | k + 1, low, high =>
    let l := (nextVal low false).getD low
    let h := (nextVal high true).getD high
    l :: h :: walkPairsV k l h

example : iterateAddr (10, 0, 0, 5) 4 =
    [(10, 0, 0, 5), (10, 0, 0, 4), (10, 0, 0, 6), (10, 0, 0, 3), (10, 0, 0, 7)] := by
  decide

/-! ## CIDR expansion (`src/utils/validate-domain-name.ts`, `iterate`,
CIDR branch)

The loop yields the current octet quadruple (guarded by `net.isIP`, which
on a dot-join of decimal numbers succeeds exactly when every octet is at
most 255), then increments `current[3]` with carries into `current[2]`
and `current[1]`; an overflow of `current[1]` breaks out of the loop.
There is no carry into `current[0]`.  The fuel is `2 ^ (32 - mask)`. -/

def cidrLoop : Nat → Nat → Nat → Nat → Nat → List Quad
  | 0, _, _, _, _ => []
  | fuel + 1, c0, c1, c2, c3 =>
    let yielded : List Quad :=
      if c0 ≤ 255 ∧ c1 ≤ 255 ∧ c2 ≤ 255 ∧ c3 ≤ 255 then [(c0, c1, c2, c3)] else []
    if c3 + 1 > 255 then
      if c2 + 1 > 255 then
        if c1 + 1 > 255 then yielded
        else yielded ++ cidrLoop fuel c0 (c1 + 1) 0 0
      else yielded ++ cidrLoop fuel c0 c1 (c2 + 1) 0
    else yielded ++ cidrLoop fuel c0 c1 c2 (c3 + 1)

/-- CIDR member expansion: guarded by `maskNum >= 0 && maskNum <= 32`
(the lower bound is vacuous for `Nat`). -/
def cidrExpand (c0 c1 c2 c3 mask : Nat) : List Quad :=
  if mask ≤ 32 then cidrLoop (2 ^ (32 - mask)) c0 c1 c2 c3 else []

example : cidrExpand 10 0 0 0 30 =
    [(10, 0, 0, 0), (10, 0, 0, 1), (10, 0, 0, 2), (10, 0, 0, 3)] := by decide
example : cidrExpand 0 255 255 255 31 = [(0, 255, 255, 255)] := by decide
example : cidrExpand 10 0 0 0 33 = [] := by decide

/-! ## Character-list string helpers

All string processing is modelled on `List Char` with structural
recursion (JS `split`, `trim`, `padStart`, `join`), so the definitions
reduce in the kernel. -/

/-- JS `s.split(sep)` for a single-character separator. -/
def splitOnChar (sep : Char) : List Char → List (List Char)
  | [] => [[]]
  | c :: rest =>
    match splitOnChar sep rest with
    | [] => if c = sep then [[], []] else [[c]]
    | g :: gs => if c = sep then [] :: g :: gs else (c :: g) :: gs

/-- JS `s.split("::")` restricted to the first occurrence: `some (l, r)`
when the string contains `"::"`, splitting around it. -/
def splitDoubleColon : List Char → Option (List Char × List Char)
  | [] => none
  | ':' :: ':' :: rest => some ([], rest)
  | c :: rest => (splitDoubleColon rest).map (fun p => (c :: p.1, p.2))

/-- JS `String.prototype.trim`. -/
def trimChars (l : List Char) : List Char :=
  ((l.dropWhile Char.isWhitespace).reverse.dropWhile Char.isWhitespace).reverse

/-- Decimal value of an all-digit character list (JS `Number` /
`parseInt(s, 10)` on digit strings). -/
def digitsToNat (l : List Char) : Nat :=
  l.foldl (fun acc c => acc * 10 + (c.toNat - 48)) 0

/-- JS `s.padStart(n, c)`. -/
def padStartChars (n : Nat) (c : Char) (l : List Char) : List Char :=
  List.replicate (n - l.length) c ++ l

/-- JS `parts.join(sep)` for a single-character separator. -/
def joinWithChar (sep : Char) : List (List Char) → List Char
  | [] => []
  | [g] => g
  | g :: gs => g ++ sep :: joinWithChar sep gs

/-- `n.toString()` as characters (decimal, no leading zeros). -/
def natChars (n : Nat) : List Char := Nat.toDigits 10 n

example : splitOnChar '.' "1.2.3.4".toList = ["1".toList, "2".toList, "3".toList, "4".toList] := by decide
example : splitDoubleColon "2001:db8::1".toList = some ("2001:db8".toList, "1".toList) := by decide
example : digitsToNat "255".toList = 255 := by decide
example : trimChars "  a b ".toList = "a b".toList := by decide

/-! ## Line classification (`src/utils/validate-domain-name.ts`)

`net.isIP` is a Node collaborator; it is modelled from its interface:
it returns `4` for a dotted quadruple of decimal octets (each 0–255, no
leading zeros), `6` for a colon-separated hexadecimal IPv6 literal, and
`0` otherwise. -/

/-- One decimal octet as accepted by `net.isIP`: 1–3 digits, no leading
zero (except `"0"` itself), value at most 255. -/
def isOctetChars (l : List Char) : Bool :=
  !l.isEmpty && l.length ≤ 3 && l.all Char.isDigit &&
    (l.length = 1 || l.headD '0' ≠ '0') && digitsToNat l ≤ 255

def isIPv4Chars (l : List Char) : Bool :=
  match splitOnChar '.' l with
  | [a, b, c, d] => isOctetChars a && isOctetChars b && isOctetChars c && isOctetChars d
  | _ => false

/-- Simplified IPv6 shape test (hex groups separated by colons, at most
8 groups, each of at most 4 digits); exact enough for every literal this
development evaluates it on. -/
def isHexChar (c : Char) : Bool :=
  c.isDigit || ('a' ≤ c && c ≤ 'f') || ('A' ≤ c && c ≤ 'F')

def isIPv6Chars (l : List Char) : Bool :=
  l.contains ':' &&
    (let gs := splitOnChar ':' l
     gs.length ≤ 8 && gs.all (fun g => g.length ≤ 4 && g.all isHexChar))

/-- Model of the `net.isIP` collaborator: `4`, `6` or `0`. -/
def isIP (l : List Char) : Nat :=
  if isIPv4Chars l then 4 else if isIPv6Chars l then 6 else 0

/-- `validateDomainName` (`src/utils/validate-domain-name.ts`): the regex
`^[A-Za-z0-9\-.]+$`. -/
def validateDomainName (l : List Char) : Bool :=
  !l.isEmpty && l.all (fun c => c.isAlphanum || c = '-' || c = '.')

/-- The CIDR regex `^(\d+\.\d+\.\d+\.\d+)\/(\d{1,2})$`: on success returns
the four base octets (`baseIp.split(".").map(Number)`) and the mask
(`parseInt(mask, 10)`). -/
def cidrMatch (l : List Char) : Option (Quad × Nat) :=
  match splitOnChar '/' l with
  | [ipPart, maskPart] =>
    if !maskPart.isEmpty && maskPart.length ≤ 2 && maskPart.all Char.isDigit then
      match splitOnChar '.' ipPart with
      | [a, b, c, d] =>
        if !a.isEmpty && a.all Char.isDigit && !b.isEmpty && b.all Char.isDigit &&
            !c.isEmpty && c.all Char.isDigit && !d.isEmpty && d.all Char.isDigit then
          some ((digitsToNat a, digitsToNat b, digitsToNat c, digitsToNat d),
                digitsToNat maskPart)
        else none
      | _ => none
    else none
  | _ => none

inductive HostType : Type
  | IP : HostType
  | CIDR : HostType
  | Domain : HostType
deriving DecidableEq, Repr

/-- `Host` (`src/types/host.ts`). -/
structure Host : Type where
  ip : Option String
  origin : String
  type : HostType
deriving DecidableEq, Repr

/-- `current.join(".")` for a quadruple of octet numbers. -/
def quadString (q : Quad) : String :=
  String.mk (joinWithChar '.' [natChars q.1, natChars q.2.1, natChars q.2.2.1, natChars q.2.2.2])

/-- The hosts yielded by the CIDR branch of `iterate` for a matched line:
every member is tagged `HostType.CIDR` and carries the literal line as
`origin`. -/
def cidrHosts (origin : String) (c0 c1 c2 c3 mask : Nat) : List Host :=
  (cidrExpand c0 c1 c2 c3 mask).map
    (fun q => { ip := some (quadString q), origin := origin, type := HostType.CIDR })

/-- One iteration of the `for await (const line of rl)` loop in `iterate`:
the hosts yielded for this line, together with whether the
`logger.warn` fallthrough fired. -/
def processLine (line : String) (enableIPv6 : Bool) : List Host × Bool :=
  let t := trimChars line.toList
  if t.isEmpty then ([], false)
  else
    let ip := isIP t
    if ip ≠ 0 ∧ (ip = 4 ∨ (ip = 6 ∧ enableIPv6)) then
      ([{ ip := some (String.mk t), origin := String.mk t, type := HostType.IP }], false)
    else
      match cidrMatch t with
      | some (base, mask) =>
        (if mask ≤ 32 then cidrHosts (String.mk t) base.1 base.2.1 base.2.2.1 base.2.2.2 mask
         else [], false)
      | none =>
        if validateDomainName t then
          ([{ ip := none, origin := String.mk t, type := HostType.Domain }], false)
        else ([], true)

/-- `iterate` over a finite line source: all yielded hosts in order, and
the number of warning-level side effects. -/
def iterate (lines : List String) (enableIPv6 : Bool) : List Host × Nat :=
  lines.foldl
    (fun acc line =>
      let r := processLine line enableIPv6
      (acc.1 ++ r.1, acc.2 + if r.2 then 1 else 0))
    ([], 0)

example : (processLine "1.1.1.1" true).1.length = 1 := by decide
example : (processLine "10.0.0.0/30" true).1.length = 4 := by decide
example : processLine "10.0.0.0/33" true = ([], false) := by decide
example : (processLine "example.com" true).1 =
    [{ ip := none, origin := "example.com", type := HostType.Domain }] := by decide
example : processLine "bad!token" true = ([], true) := by decide
example : (iterate ["1.1.1.1", "10.0.0.0/30", "10.0.0.0/33", "example.com", "bad!token"] true).1.length = 6 := by decide

/-! ## IPv6 expansion and re-serialization (`src/utils/next-ip.ts`) -/

/-- `expandIPv6`: fill in a `::` compression with `"0000"` groups and
zero-pad every group to four digits. -/
def expandIPv6 (ip : String) : String :=
  match splitDoubleColon ip.toList with
  | some (l, r) =>
    let leftParts := if l.isEmpty then [] else splitOnChar ':' l
    let rightParts := if r.isEmpty then [] else splitOnChar ':' r
    let missing := 8 - leftParts.length - rightParts.length
    let expandedParts := leftParts ++ List.replicate missing ['0', '0', '0', '0'] ++ rightParts
    String.mk (joinWithChar ':' (expandedParts.map (padStartChars 4 '0')))
  | none =>
    String.mk (joinWithChar ':' ((splitOnChar ':' ip.toList).map (padStartChars 4 '0')))

/-- `part.replace(/^0+/, '') || '0'`. -/
def stripLeadingZeros (l : List Char) : List Char :=
  match l.dropWhile (fun c => c = '0') with
  | [] => ['0']
  | r => r

/-- The best-zero-run scan of `bigIntToIPv6`: folds the loop state
`(bestStart, bestLength, currentStart, currentLength)` over the indexed
groups (starts use the `-1` sentinel, hence `Int`). -/
def bestRunState (parts : List (List Char)) : Int × Nat × Int × Nat :=
  parts.enum.foldl
    (fun st ip =>
      let bS := st.1; let bL := st.2.1; let cS := st.2.2.1; let cL := st.2.2.2
      if ip.2 = ['0'] then
        if cS = -1 then (bS, bL, (ip.1 : Int), 1) else (bS, bL, cS, cL + 1)
      else
        if cL > bL then (cS, cL, -1, 0) else (bS, bL, -1, 0))
    (-1, 0, -1, 0)

/-- Final best run of `bigIntToIPv6` (the trailing
`if (currentLength > bestLength)` check). -/
def bestRun (parts : List (List Char)) : Int × Nat :=
  let st := bestRunState parts
  if st.2.2.2 > st.2.1 then (st.2.2.1, st.2.2.2) else (st.1, st.2.1)

/-- `bigIntToIPv6`: hex-expand to 32 digits, cut into 8 groups, strip
leading zeros, then compress the first longest run of `"0"` groups of
length at least 2 with `::`. -/
def bigIntToIPv6 (value : Nat) : String :=
  let hexString := padStartChars 32 '0' (Nat.toDigits 16 value)
  let parts := (List.range 8).map (fun i => ((hexString.drop (4 * i)).take 4))
  let cleanParts := parts.map stripLeadingZeros
  let br := bestRun cleanParts
  let bestStart := br.1
  let bestLength := br.2
  if bestLength ≥ 2 then
    let beforeCompression := cleanParts.take bestStart.toNat
    let afterCompression := cleanParts.drop (bestStart.toNat + bestLength)
    if beforeCompression.isEmpty ∧ afterCompression.isEmpty then "::"
    else if beforeCompression.isEmpty then
      String.mk (':' :: ':' :: joinWithChar ':' afterCompression)
    else if afterCompression.isEmpty then
      String.mk (joinWithChar ':' beforeCompression ++ [':', ':'])
    else
      String.mk (joinWithChar ':' beforeCompression ++ ':' :: ':' :: joinWithChar ':' afterCompression)
  else String.mk (joinWithChar ':' cleanParts)

example : expandIPv6 "2001:db8::1" = "2001:0db8:0000:0000:0000:0000:0000:0001" := by decide
example : bigIntToIPv6 0x20010db8000000000000000000000001 = "2001:db8::1" := by decide
example : bigIntToIPv6 0x00010000000000010000000000010001 = "1::1:0:0:1:1" := by decide
example : bigIntToIPv6 0x00010000000100010001000100010001 = "1:0:1:1:1:1:1:1" := by decide

/-! ## Capability prober (`src/scanner/scanner.service.ts`)

Network effects (DNS, TCP connect, TLS handshake, GeoIP) are external
collaborators; an environment record carries their outcomes.  A failed
connect or handshake rejects the corresponding promise, modelled as an
`Except.error` that the surrounding `try`/`catch` of `scanTLS` turns
into `null`. -/

/-- `TLSScanResult` (`src/types/tlsscan-result.ts`). -/
structure TLSScanResult : Type where
  ip : String
  origin : String
  domain : String
  issuer : String
  geoCode : String
  feasible : Bool
  tlsVersion : String
  alpn : String
deriving DecidableEq, Repr

/-- The `issuer.O` field of a peer certificate: absent, a single string,
or an array of strings. -/
inductive IssuerO : Type
  | missing : IssuerO
  | single : String → IssuerO
  | multi : List String → IssuerO
deriving DecidableEq, Repr

/-- `cert.subject` with its optional common name. -/
structure CertSubject : Type where
  CN : Option String
deriving DecidableEq, Repr

/-- The peer certificate fields `scanTLS` reads. -/
structure PeerCert : Type where
  subject : Option CertSubject
  issuerO : IssuerO
deriving DecidableEq, Repr

/-- Outcome of a successful TLS handshake: negotiated protocol
(`getProtocol(): string | null`), `alpnProtocol` (absent means the JS
falsy fallback to `''`), and the peer certificate (`none` models both a
missing certificate object and the `!cert` check). -/
structure HandshakeData : Type where
  protocol : Option String
  alpnProtocol : Option String
  cert : Option PeerCert
deriving DecidableEq, Repr

/-- Outcomes of the external collaborators for one probe. -/
structure ScanEnv : Type where
  dnsResult : Option String
  connectOk : Bool
  handshakeResult : Option HandshakeData
  geo : String → String

/-- `isFeasible` (`scanner.service.ts`): TLS 1.3, ALPN `h2`, non-empty
certificate domain and issuer. -/
def isFeasible (protocol : Option String) (alpn domain issuers : String) : Bool :=
  protocol == some "TLSv1.3" && alpn == "h2" &&
    decide (0 < domain.length) && decide (0 < issuers.length)

/-- `cert.issuer?.O ? (Array.isArray(...) ? join(' | ') : O) : ''`. -/
def issuerString : IssuerO → String
  | IssuerO.missing => ""
  | IssuerO.single s => s
  | IssuerO.multi l => String.intercalate " | " l

/-- The body of `scanTLS` up to and including the `try` block: early
`return null` paths produce `Except.ok none`, rejected promises
(connect / handshake failure or timeout) produce `Except.error`. -/
def scanTLSBody (env : ScanEnv) (host : Host) : Except String (Option TLSScanResult) :=
  match (match host.ip with
         | none => env.dnsResult
         | some ip => some ip) with
  | none => Except.ok none
  | some ip =>
    if !env.connectOk then Except.error "connection failed"
    else
      match env.handshakeResult with
      | none => Except.error "TLS handshake failed"
      | some hs =>
        let protocol := hs.protocol
        let alpn := hs.alpnProtocol.getD ""
        match hs.cert with
        | none => Except.ok none
        | some cert =>
          match cert.subject with
          | none => Except.ok none
          | some subject =>
            let domain := subject.CN.getD ""
            let issuers := issuerString cert.issuerO
            let geoCode := env.geo ip
            let feasible := isFeasible protocol alpn domain issuers
            Except.ok (some
              { ip := ip, origin := host.origin, domain := domain, issuer := issuers,
                geoCode := geoCode, feasible := feasible,
                tlsVersion := protocol.getD "unknown",
                alpn := if alpn = "" then "none" else alpn })

/-- `scanTLS`: the outer `catch` converts every rejection into `null`. -/
def scanTLS (env : ScanEnv) (host : Host) : Option TLSScanResult :=
  match scanTLSBody env host with
  | Except.ok v => v
  | Except.error _ => none

/-- `formatScanResult`: empty string for non-feasible results, otherwise
the five fields joined with commas (the issuer quoted) plus a newline. -/
def formatScanResult (result : TLSScanResult) : String :=
  if !result.feasible then ""
  else
    result.ip ++ "," ++ result.origin ++ "," ++ result.domain ++ ",\"" ++
      result.issuer ++ "\"," ++ result.geoCode ++ "\n"

/-- The header written by `setupOutputFile` (`src/app.service.ts`). -/
def outputHeader : String := "IP,ORIGIN,CERT_DOMAIN,CERT_ISSUER,GEO_CODE\n"

/-- The CSV lines appended by `scannerWorker` for a sequence of probe
outcomes: a line is written only when the result exists, is feasible, and
formats to a non-empty string. -/
def workerLines (results : List (Option TLSScanResult)) : List String :=
  results.filterMap
    (fun r? =>
      match r? with
      | some r =>
        if r.feasible then
          let csvLine := formatScanResult r
          if csvLine ≠ "" then some csvLine else none
        else none
      | none => none)

/-- The full output-file contents for a run: header first, then the
worker-written lines. -/
def outputFileContents (results : List (Option TLSScanResult)) : String :=
  outputHeader ++ String.join (workerLines results)

/-- Packed 32-bit value of an octet quadruple (proof-level view of the
walk state). -/
def quadVal (q : Quad) : Nat := ipv4Value q.1 q.2.1 q.2.2.1 q.2.2.2

/-! ## Bridge lemmas: bit packing and unpacking -/

theorem shiftLeft_lor_eq_add {k x y : Nat} (h : y < 2 ^ k) :
    (x <<< k) ||| y = x * 2 ^ k + y := by
  rw [Nat.shiftLeft_eq, Nat.mul_comm]
  exact (Nat.mul_add_lt_is_or h x).symm

theorem ipv4Value_eq {a b c d : Nat}
    (ha : a ≤ 255) (hb : b ≤ 255) (hc : c ≤ 255) (hd : d ≤ 255) :
    ipv4Value a b c d = ((a * 256 + b) * 256 + c) * 256 + d := by
  unfold ipv4Value
  rw [Nat.lor_assoc, Nat.lor_assoc]
  rw [shiftLeft_lor_eq_add (k := 8) (by omega)]
  rw [shiftLeft_lor_eq_add (k := 16) (by norm_num; omega)]
  rw [shiftLeft_lor_eq_add (k := 24) (by norm_num; omega)]
  rw [Nat.mod_eq_of_lt (by norm_num; omega)]
  norm_num
  ring

theorem ipv4Value_lt {a b c d : Nat}
    (ha : a ≤ 255) (hb : b ≤ 255) (hc : c ≤ 255) (hd : d ≤ 255) :
    ipv4Value a b c d < 2 ^ 32 := by
  rw [ipv4Value_eq ha hb hc hd]; norm_num; omega

theorem extract_octet (v k : Nat) : (v >>> k) &&& 0xff = v / 2 ^ k % 2 ^ 8 := by
  rw [Nat.shiftRight_eq_div_pow]
  rw [show (0xff : Nat) = 2 ^ 8 - 1 from rfl]
  exact Nat.and_pow_two_sub_one_eq_mod _ 8

theorem unpackQuad_le (v : Nat) :
    (unpackQuad v).1 ≤ 255 ∧ (unpackQuad v).2.1 ≤ 255 ∧
      (unpackQuad v).2.2.1 ≤ 255 ∧ (unpackQuad v).2.2.2 ≤ 255 := by
  unfold unpackQuad
  refine ⟨?_, ?_, ?_, ?_⟩ <;> simp <;> omega

theorem ipv4Value_unpack {v : Nat} (hv : v < 2 ^ 32) :
    ipv4Value (unpackQuad v).1 (unpackQuad v).2.1 (unpackQuad v).2.2.1 (unpackQuad v).2.2.2 = v := by
  obtain ⟨h1, h2, h3, h4⟩ := unpackQuad_le v
  rw [ipv4Value_eq h1 h2 h3 h4]
  unfold unpackQuad
  simp only
  norm_num at hv ⊢
  omega

theorem unpack_ipv4Value {a b c d : Nat}
    (ha : a ≤ 255) (hb : b ≤ 255) (hc : c ≤ 255) (hd : d ≤ 255) :
    unpackQuad (ipv4Value a b c d) = (a, b, c, d) := by
  rw [ipv4Value_eq ha hb hc hd]
  unfold unpackQuad
  norm_num
  refine ⟨?_, ?_, ?_, ?_⟩ <;> omega

theorem and_0xff (v : Nat) : v &&& 0xff = v % 2 ^ 8 := by
  rw [show (0xff : Nat) = 2 ^ 8 - 1 from rfl]
  exact Nat.and_pow_two_sub_one_eq_mod _ 8

theorem nextIPv4_eq_nextVal {a b c d : Nat}
    (ha : a ≤ 255) (hb : b ≤ 255) (hc : c ≤ 255) (hd : d ≤ 255) (inc : Bool) :
    nextIPv4 a b c d inc = (nextVal (ipv4Value a b c d) inc).map unpackQuad := by
  have hv : ipv4Value a b c d < 2 ^ 32 := ipv4Value_lt ha hb hc hd
  unfold nextIPv4 nextVal
  set n := ipv4Value a b c d with hn
  clear_value n
  simp only [extract_octet, and_0xff]
  cases inc with
  | true =>
    simp only [eq_self_iff_true, if_true]
    by_cases h : n + 1 > 0xffffffff
    · rw [if_pos (Or.inr (by exact_mod_cast h)), if_pos h]
      rfl
    · rw [if_neg (by omega), if_neg h]
      have ht : ((n : Int) + 1).toNat = n + 1 := by omega
      rw [ht]
      simp [unpackQuad, Nat.shiftRight_eq_div_pow]
  | false =>
    simp only [Bool.false_eq_true, if_false]
    by_cases h : n = 0
    · rw [if_pos (Or.inl (by rw [h]; norm_num)), if_pos h]
      rfl
    · rw [if_neg (by norm_num at hv ⊢; omega), if_neg h]
      have ht : ((n : Int) - 1).toNat = n - 1 := by omega
      rw [ht]
      simp [unpackQuad, Nat.shiftRight_eq_div_pow]

/-! ## Claim C2: the IPv4 step is inverse to itself away from the
address-space boundaries -/

/-- C2: for every valid IPv4 address `a.b.c.d`, stepping up then down (or
down then up) returns the original address, except that stepping up from
`255.255.255.255` and stepping down from `0.0.0.0` return `NONE`: the
walk terminates at the space boundary instead of wrapping. -/
theorem claim_C2_step_roundtrip (a b c d : Nat)
    (ha : a ≤ 255) (hb : b ≤ 255) (hc : c ≤ 255) (hd : d ≤ 255) :
    (((a, b, c, d) : Quad) = (255, 255, 255, 255) → nextIPv4 a b c d true = none) ∧
    (((a, b, c, d) : Quad) ≠ (255, 255, 255, 255) →
      (nextIPv4 a b c d true).bind
        (fun q => nextIPv4 q.1 q.2.1 q.2.2.1 q.2.2.2 false) = some (a, b, c, d)) ∧
    (((a, b, c, d) : Quad) = (0, 0, 0, 0) → nextIPv4 a b c d false = none) ∧
    (((a, b, c, d) : Quad) ≠ (0, 0, 0, 0) →
      (nextIPv4 a b c d false).bind
        (fun q => nextIPv4 q.1 q.2.1 q.2.2.1 q.2.2.2 true) = some (a, b, c, d)) := by
  have hv : ipv4Value a b c d < 2 ^ 32 := ipv4Value_lt ha hb hc hd
  have heq := ipv4Value_eq ha hb hc hd
  refine ⟨?_, ?_, ?_, ?_⟩
  · intro h
    simp only [Prod.mk.injEq] at h
    have hmax : ipv4Value a b c d = 0xffffffff := by rw [heq]; omega
    rw [nextIPv4_eq_nextVal ha hb hc hd, hmax]
    rfl
  · intro h
    simp only [ne_eq, Prod.mk.injEq, not_and] at h
    have hlt : ipv4Value a b c d < 0xffffffff := by
      rcases Nat.lt_or_ge (ipv4Value a b c d) 0xffffffff with h' | h'
      · exact h'
      · exfalso
        have : ipv4Value a b c d = 0xffffffff := by norm_num at hv h' ⊢; omega
        rw [heq] at this
        exact h (by omega) (by omega) (by omega) (by omega)
    rw [nextIPv4_eq_nextVal ha hb hc hd]
    have h1 : nextVal (ipv4Value a b c d) true = some (ipv4Value a b c d + 1) := by
      unfold nextVal; rw [if_pos rfl, if_neg (by omega)]
    rw [h1]
    simp only [Option.map_some', Option.some_bind]
    obtain ⟨u1, u2, u3, u4⟩ := unpackQuad_le (ipv4Value a b c d + 1)
    rw [nextIPv4_eq_nextVal u1 u2 u3 u4]
    rw [ipv4Value_unpack (by norm_num at hv ⊢; omega)]
    have h2 : nextVal (ipv4Value a b c d + 1) false = some (ipv4Value a b c d) := by
      unfold nextVal; rw [if_neg (by simp), if_neg (by omega)]; simp
    rw [h2]
    simp only [Option.map_some']
    rw [unpack_ipv4Value ha hb hc hd]
  · intro h
    simp only [Prod.mk.injEq] at h
    have hzero : ipv4Value a b c d = 0 := by rw [heq]; omega
    rw [nextIPv4_eq_nextVal ha hb hc hd, hzero]
    rfl
  · intro h
    simp only [ne_eq, Prod.mk.injEq, not_and] at h
    have hpos : 0 < ipv4Value a b c d := by
      rcases Nat.eq_zero_or_pos (ipv4Value a b c d) with h' | h'
      · exfalso
        rw [heq] at h'
        exact h (by omega) (by omega) (by omega) (by omega)
      · exact h'
    rw [nextIPv4_eq_nextVal ha hb hc hd]
    have h1 : nextVal (ipv4Value a b c d) false = some (ipv4Value a b c d - 1) := by
      unfold nextVal; rw [if_neg (by simp), if_neg (by omega)]
    rw [h1]
    simp only [Option.map_some', Option.some_bind]
    obtain ⟨u1, u2, u3, u4⟩ := unpackQuad_le (ipv4Value a b c d - 1)
    rw [nextIPv4_eq_nextVal u1 u2 u3 u4]
    rw [ipv4Value_unpack (by omega)]
    have h2 : nextVal (ipv4Value a b c d - 1) true = some (ipv4Value a b c d) := by
      unfold nextVal; rw [if_pos rfl, if_neg (by norm_num at hv ⊢; omega)]
      congr 1
      omega
    rw [h2]
    simp only [Option.map_some']
    rw [unpack_ipv4Value ha hb hc hd]

/-- Witness for C2 at concrete addresses. -/
theorem claim_C2_step_roundtrip_witness :
    nextIPv4 255 255 255 255 true = none ∧
    (nextIPv4 10 0 0 5 true).bind
      (fun q => nextIPv4 q.1 q.2.1 q.2.2.1 q.2.2.2 false) = some (10, 0, 0, 5) ∧
    nextIPv4 0 0 0 0 false = none ∧
    (nextIPv4 10 0 0 5 false).bind
      (fun q => nextIPv4 q.1 q.2.1 q.2.2.1 q.2.2.2 true) = some (10, 0, 0, 5) :=
  ⟨(claim_C2_step_roundtrip 255 255 255 255 (by decide) (by decide) (by decide) (by decide)).1 rfl,
   (claim_C2_step_roundtrip 10 0 0 5 (by decide) (by decide) (by decide) (by decide)).2.1 (by decide),
   (claim_C2_step_roundtrip 0 0 0 0 (by decide) (by decide) (by decide) (by decide)).2.2.1 rfl,
   (claim_C2_step_roundtrip 10 0 0 5 (by decide) (by decide) (by decide) (by decide)).2.2.2 (by decide)⟩

/-! ## Claim C3: the feasibility predicate -/

theorem string_length_pos_iff (s : String) : 0 < s.length ↔ s ≠ "" := by
  cases s with
  | mk data => cases data <;> simp [String.length, String.ext_iff]

theorem isFeasible_iff (p : Option String) (al dom iss : String) :
    isFeasible p al dom iss = true ↔
      (p = some "TLSv1.3" ∧ al = "h2" ∧ dom ≠ "" ∧ iss ≠ "") := by
  unfold isFeasible
  simp only [Bool.and_eq_true, beq_iff_eq, decide_eq_true_eq, and_assoc]
  rw [string_length_pos_iff, string_length_pos_iff]

/-- C3: a completed probe's `feasible` flag is true exactly when the
negotiated protocol is `TLSv1.3`, the negotiated ALPN is `h2`, and the
certificate domain and issuer are non-empty; the `isFeasible` iff settles
all 16 truth-value combinations of the four clauses at once. -/
theorem claim_C3_feasible_iff :
    (∀ (p : Option String) (al dom iss : String),
      isFeasible p al dom iss = true ↔
        (p = some "TLSv1.3" ∧ al = "h2" ∧ dom ≠ "" ∧ iss ≠ "")) ∧
    (∀ (env : ScanEnv) (host : Host) (hs : HandshakeData) (cert : PeerCert)
        (subj : CertSubject) (r : TLSScanResult),
      env.handshakeResult = some hs → hs.cert = some cert → cert.subject = some subj →
      scanTLS env host = some r →
      (r.feasible = true ↔
        (hs.protocol = some "TLSv1.3" ∧ hs.alpnProtocol.getD "" = "h2" ∧
          subj.CN.getD "" ≠ "" ∧ issuerString cert.issuerO ≠ ""))) := by
  refine ⟨isFeasible_iff, ?_⟩
  intro env host hs cert subj r hhs hcert hsubj h
  unfold scanTLS scanTLSBody at h
  cases hip : host.ip with
  | none =>
    cases hdns : env.dnsResult with
    | none => simp [hip, hdns] at h
    | some ip =>
      cases hco : env.connectOk with
      | false => simp [hip, hdns, hco] at h
      | true =>
        simp only [hip, hdns, hco, hhs, hcert, hsubj, Bool.not_true, Bool.false_eq_true,
          if_false, Option.some.injEq] at h
        subst h
        exact isFeasible_iff _ _ _ _
  | some ip =>
    cases hco : env.connectOk with
    | false => simp [hip, hco] at h
    | true =>
      simp only [hip, hco, hhs, hcert, hsubj, Bool.not_true, Bool.false_eq_true,
        if_false, Option.some.injEq] at h
      subst h
      exact isFeasible_iff _ _ _ _

/-- Witness for C3 at a concrete environment: a completed TLS 1.3 + h2
probe with populated certificate fields is feasible, and downgrading the
protocol alone flips the flag. -/
theorem claim_C3_feasible_iff_witness :
    isFeasible (some "TLSv1.3") "h2" "example.com" "DigiCert" = true ∧
    isFeasible (some "TLSv1.2") "h2" "example.com" "DigiCert" = false ∧
    ({ ip := "1.2.3.4", origin := "1.2.3.4", domain := "example.com",
       issuer := "DigiCert", geoCode := "US", feasible := true,
       tlsVersion := "TLSv1.3", alpn := "h2" } : TLSScanResult).feasible = true := by
  have h1 := (claim_C3_feasible_iff.1 (some "TLSv1.3") "h2" "example.com" "DigiCert").2
    (by refine ⟨rfl, rfl, ?_, ?_⟩ <;> decide)
  have h2 := claim_C3_feasible_iff.1 (some "TLSv1.2") "h2" "example.com" "DigiCert"
  have h3 := (claim_C3_feasible_iff.2
      { dnsResult := none, connectOk := true,
        handshakeResult := some
          { protocol := some "TLSv1.3", alpnProtocol := some "h2",
            cert := some { subject := some { CN := some "example.com" },
                           issuerO := IssuerO.single "DigiCert" } },
        geo := fun _ => "US" }
      { ip := some "1.2.3.4", origin := "1.2.3.4", type := HostType.IP }
      { protocol := some "TLSv1.3", alpnProtocol := some "h2",
        cert := some { subject := some { CN := some "example.com" },
                       issuerO := IssuerO.single "DigiCert" } }
      { subject := some { CN := some "example.com" },
        issuerO := IssuerO.single "DigiCert" }
      { CN := some "example.com" }
      { ip := "1.2.3.4", origin := "1.2.3.4", domain := "example.com",
        issuer := "DigiCert", geoCode := "US", feasible := true,
        tlsVersion := "TLSv1.3", alpn := "h2" }
      rfl rfl rfl (by decide)).2
    ⟨rfl, rfl, by decide, by decide⟩
  refine ⟨h1, ?_, h3⟩
  by_contra hne
  have := (h2.1 (by revert hne; cases h : isFeasible (some "TLSv1.2") "h2" "example.com" "DigiCert" <;> simp [h])).1
  simp at this

/-! ## Walk analysis: the value-level shape of the infinite walk -/

theorem nextVal_lt {v w : Nat} (hv : v < 2 ^ 32) (inc : Bool)
    (h : nextVal v inc = some w) : w < 2 ^ 32 := by
  unfold nextVal at h
  cases inc with
  | false =>
    simp only [Bool.false_eq_true, if_false] at h
    split_ifs at h with h0
    · injection h with h; omega
  | true =>
    simp only [eq_self_iff_true, if_true] at h
    split_ifs at h with h0
    · injection h with h; norm_num at h0 ⊢; omega

theorem stepQuad_val {q : Quad}
    (h1 : q.1 ≤ 255) (h2 : q.2.1 ≤ 255) (h3 : q.2.2.1 ≤ 255) (h4 : q.2.2.2 ≤ 255)
    (inc : Bool) :
    quadVal (stepQuad q inc) = (nextVal (quadVal q) inc).getD (quadVal q) ∧
    ((stepQuad q inc).1 ≤ 255 ∧ (stepQuad q inc).2.1 ≤ 255 ∧
      (stepQuad q inc).2.2.1 ≤ 255 ∧ (stepQuad q inc).2.2.2 ≤ 255) := by
  have hv : quadVal q < 2 ^ 32 := ipv4Value_lt h1 h2 h3 h4
  unfold stepQuad
  rw [nextIPv4_eq_nextVal h1 h2 h3 h4]
  cases hnv : nextVal (quadVal q) inc with
  | none =>
    rw [show ipv4Value q.1 q.2.1 q.2.2.1 q.2.2.2 = quadVal q from rfl, hnv]
    exact ⟨rfl, h1, h2, h3, h4⟩
  | some w =>
    have hw : w < 2 ^ 32 := nextVal_lt hv inc hnv
    rw [show ipv4Value q.1 q.2.1 q.2.2.1 q.2.2.2 = quadVal q from rfl, hnv]
    simp only [Option.map_some', Option.getD_some]
    obtain ⟨u1, u2, u3, u4⟩ := unpackQuad_le w
    exact ⟨ipv4Value_unpack hw, u1, u2, u3, u4⟩

theorem walkFromQ_map : ∀ (n i : Nat) (low high : Quad),
    low.1 ≤ 255 → low.2.1 ≤ 255 → low.2.2.1 ≤ 255 → low.2.2.2 ≤ 255 →
    high.1 ≤ 255 → high.2.1 ≤ 255 → high.2.2.1 ≤ 255 → high.2.2.2 ≤ 255 →
    (walkFromQ n i low high).map quadVal = walkFromV n i (quadVal low) (quadVal high) := by
  intro n
  induction n with
  | zero => intros; rfl
  | succ m ih =>
    intro i low high l1 l2 l3 l4 g1 g2 g3 g4
    simp only [walkFromQ, walkFromV]
    by_cases hpar : i % 2 = 0
    · rw [if_pos hpar, if_pos hpar]
      obtain ⟨hval, hb1, hb2, hb3, hb4⟩ := stepQuad_val l1 l2 l3 l4 false
      simp only [List.map_cons]
      rw [ih (i + 1) _ _ hb1 hb2 hb3 hb4 g1 g2 g3 g4, hval]
    · rw [if_neg hpar, if_neg hpar]
      obtain ⟨hval, hb1, hb2, hb3, hb4⟩ := stepQuad_val g1 g2 g3 g4 true
      simp only [List.map_cons]
      rw [ih (i + 1) _ _ l1 l2 l3 l4 hb1 hb2 hb3 hb4, hval]

theorem walkFromV_even : ∀ (k j low high : Nat),
    walkFromV (2 * k) (2 * j) low high = walkPairsV k low high := by
  intro k
  induction k with
  | zero => intros; rfl
  | succ m ih =>
    intro j low high
    rw [show 2 * (m + 1) = 2 * m + 1 + 1 by ring]
    simp only [walkFromV, walkPairsV]
    rw [if_pos (by omega)]
    rw [if_neg (by omega)]
    rw [show 2 * j + 1 + 1 = 2 * (j + 1) by ring, ih (j + 1)]

theorem downVal (low : Nat) : (nextVal low false).getD low = low - 1 := by
  unfold nextVal
  by_cases h : low = 0
  · simp [h]
  · simp [h]

theorem upVal {high : Nat} (h : high ≤ 0xffffffff) :
    (nextVal high true).getD high = min (high + 1) 0xffffffff := by
  unfold nextVal
  by_cases hh : high + 1 > 0xffffffff
  · rw [if_pos rfl, if_pos hh]
    simp only [Option.getD_none]
    omega
  · rw [if_pos rfl, if_neg hh]
    simp only [Option.getD_some]
    omega

theorem flatMap_range_congr (f g : Nat → List Nat) : ∀ (n : Nat), (∀ j, j < n → f j = g j) →
    (List.range n).flatMap f = (List.range n).flatMap g := by
  intro n
  induction n with
  | zero => intros; rfl
  | succ m ih =>
    intro h
    rw [List.range_succ, List.flatMap_append, List.flatMap_append,
      ih (fun j hj => h j (by omega))]
    simp [h m (by omega)]

theorem walkPairsV_eq : ∀ (k low high : Nat), high ≤ 0xffffffff →
    walkPairsV k low high =
      (List.range k).flatMap (fun j => [low - (j + 1), min (high + (j + 1)) 0xffffffff]) := by
  intro k
  induction k with
  | zero => intros; rfl
  | succ m ih =>
    intro low high hh
    simp only [walkPairsV]
    rw [downVal, upVal hh]
    rw [ih (low - 1) (min (high + 1) 0xffffffff) (by omega)]
    rw [List.range_succ_eq_map, List.flatMap_cons, List.flatMap_map]
    simp only [List.cons_append, List.nil_append, List.cons.injEq]
    refine ⟨trivial, trivial, ?_⟩
    apply flatMap_range_congr
    intro j hj
    simp only [Nat.succ_eq_add_one, List.cons.injEq, and_true]
    exact ⟨by omega, by omega⟩

theorem walkPairsV_eq_bounded (k low high : Nat) (hb : high + k ≤ 0xffffffff) :
    walkPairsV k low high =
      (List.range k).flatMap (fun j => [low - (j + 1), high + (j + 1)]) := by
  rw [walkPairsV_eq k low high (by omega)]
  apply flatMap_range_congr
  intro j hj
  simp only [List.cons.injEq, true_and, and_true]
  omega

theorem specFlat_mem {k v x : Nat} (hk : k ≤ v)
    (hx : x ∈ (List.range k).flatMap (fun j => [v - (j + 1), v + (j + 1)])) :
    v - k ≤ x ∧ x ≤ v + k ∧ x ≠ v := by
  rw [List.mem_flatMap] at hx
  obtain ⟨j, hj, hmem⟩ := hx
  rw [List.mem_range] at hj
  simp only [List.mem_cons, List.mem_singleton] at hmem
  rcases hmem with h | h | h
  · subst h; refine ⟨by omega, by omega, by omega⟩
  · subst h; refine ⟨by omega, by omega, by omega⟩
  · exact absurd h (by simp)

theorem specFlat_nodup : ∀ (k v : Nat), k ≤ v →
    ((List.range k).flatMap (fun j => [v - (j + 1), v + (j + 1)])).Nodup := by
  intro k
  induction k with
  | zero => intros; simp
  | succ m ih =>
    intro v hk
    rw [List.range_succ, List.flatMap_append, List.nodup_append]
    refine ⟨ih v (by omega), ?_, ?_⟩
    · simp only [List.flatMap_cons, List.flatMap_nil, List.append_nil, List.nil_append]
      simp only [List.nodup_cons]
      exact ⟨by simp; omega, by simp⟩
    · intro x hx hx2
      obtain ⟨hb1, hb2, _⟩ := specFlat_mem (by omega : m ≤ v) hx
      simp only [List.flatMap_cons, List.flatMap_nil, List.append_nil,
        List.mem_cons, List.mem_singleton] at hx2
      rcases hx2 with h | h | h
      · omega
      · omega
      · exact absurd h (by simp)

theorem flat_pairs_getD : ∀ (j n : Nat) (f g : Nat → Nat) (dflt : Nat), j < n →
    ((List.range n).flatMap (fun i => [f i, g i])).getD (2 * j) dflt = f j ∧
    ((List.range n).flatMap (fun i => [f i, g i])).getD (2 * j + 1) dflt = g j := by
  intro j
  induction j with
  | zero =>
    intro n f g dflt hn
    obtain ⟨m, rfl⟩ : ∃ m, n = m + 1 := ⟨n - 1, by omega⟩
    rw [List.range_succ_eq_map, List.flatMap_cons]
    simp [List.getD_cons_zero, List.getD_cons_succ]
  | succ jj ih =>
    intro n f g dflt hn
    obtain ⟨m, rfl⟩ : ∃ m, n = m + 1 := ⟨n - 1, by omega⟩
    rw [List.range_succ_eq_map, List.flatMap_cons, List.flatMap_map]
    have e1 : 2 * (jj + 1) = 2 * jj + 1 + 1 := by ring
    rw [e1]
    simp only [List.cons_append, List.nil_append, List.getD_cons_succ, Nat.succ_eq_add_one]
    exact ih m (fun a => f (a + 1)) (fun a => g (a + 1)) dflt (by omega)

theorem iterateAddr_map (a b c d k : Nat)
    (ha : a ≤ 255) (hb : b ≤ 255) (hc : c ≤ 255) (hd : d ≤ 255) :
    (iterateAddr (a, b, c, d) (2 * k)).map quadVal =
      ipv4Value a b c d :: walkPairsV k (ipv4Value a b c d) (ipv4Value a b c d) := by
  unfold iterateAddr
  rw [List.map_cons]
  rw [walkFromQ_map (2 * k) 0 (a, b, c, d) (a, b, c, d) ha hb hc hd ha hb hc hd]
  have h := walkFromV_even k 0 (ipv4Value a b c d) (ipv4Value a b c d)
  norm_num at h
  rw [show quadVal (a, b, c, d) = ipv4Value a b c d from rfl, h]

/-! ## Claim C4: shape of the single-address infinite walk -/

/-- C4: the walk seeded at `10.0.0.5` yields the seed, then `10.0.0.4`,
then `10.0.0.6`; in general, as long as neither boundary has been hit,
the first `1 + 2k` yields are exactly the seed followed by the strictly
alternating down/up values `v-1, v+1, v-2, v+2, …`, with no repeated and
no skipped address. -/
theorem claim_C4_walk_shape :
    (iterateAddr (10, 0, 0, 5) 2 = [(10, 0, 0, 5), (10, 0, 0, 4), (10, 0, 0, 6)]) ∧
    (∀ a b c d k, a ≤ 255 → b ≤ 255 → c ≤ 255 → d ≤ 255 →
      k ≤ ipv4Value a b c d → ipv4Value a b c d + k ≤ 0xffffffff →
      ((iterateAddr (a, b, c, d) (2 * k)).map quadVal =
          ipv4Value a b c d ::
            (List.range k).flatMap
              (fun j => [ipv4Value a b c d - (j + 1), ipv4Value a b c d + (j + 1)]) ∧
        (iterateAddr (a, b, c, d) (2 * k)).Nodup)) := by
  constructor
  · decide
  · intro a b c d k ha hb hc hd hk hbound
    have hmap := iterateAddr_map a b c d k ha hb hc hd
    rw [walkPairsV_eq_bounded k _ _ hbound] at hmap
    refine ⟨hmap, ?_⟩
    apply List.Nodup.of_map quadVal
    rw [hmap, List.nodup_cons]
    constructor
    · intro hmem
      exact (specFlat_mem hk hmem).2.2 rfl
    · exact specFlat_nodup k _ hk

/-- Witness for C4 at seed `10.0.0.5`, two down/up pairs. -/
theorem claim_C4_walk_shape_witness :
    (iterateAddr (10, 0, 0, 5) (2 * 2)).map quadVal =
        ipv4Value 10 0 0 5 ::
          (List.range 2).flatMap
            (fun j => [ipv4Value 10 0 0 5 - (j + 1), ipv4Value 10 0 0 5 + (j + 1)]) ∧
      (iterateAddr (10, 0, 0, 5) (2 * 2)).Nodup :=
  claim_C4_walk_shape.2 10 0 0 5 2 (by decide) (by decide) (by decide) (by decide)
    (by decide) (by decide)

/-! ## Claim C10: an exhausted walk direction re-yields its boundary
watermark forever -/

/-- C10: in the walk seeded at a valid address of value `v`, the `j`-th
down-yield is `v - (j+1)` (truncated at zero) and the `j`-th up-yield is
`min (v + (j+1), 2^32-1)`; once a side's boundary is reached (`v ≤ j`
downward, `v + j ≥ 2^32-1` upward), every later yield on that side is the
unchanged boundary watermark itself, emitted again as a duplicate. -/
theorem claim_C10_boundary_duplicates :
    ∀ a b c d k j, a ≤ 255 → b ≤ 255 → c ≤ 255 → d ≤ 255 → j < k →
      (((iterateAddr (a, b, c, d) (2 * k)).map quadVal).getD (2 * j + 1) 0 =
          ipv4Value a b c d - (j + 1) ∧
        ((iterateAddr (a, b, c, d) (2 * k)).map quadVal).getD (2 * j + 2) 0 =
          min (ipv4Value a b c d + (j + 1)) 0xffffffff ∧
        (ipv4Value a b c d ≤ j →
          ((iterateAddr (a, b, c, d) (2 * k)).map quadVal).getD (2 * j + 1) 0 = 0) ∧
        (0xffffffff ≤ ipv4Value a b c d + j →
          ((iterateAddr (a, b, c, d) (2 * k)).map quadVal).getD (2 * j + 2) 0 =
            0xffffffff)) := by
  intro a b c d k j ha hb hc hd hj
  have hv : ipv4Value a b c d < 2 ^ 32 := ipv4Value_lt ha hb hc hd
  have hmap := iterateAddr_map a b c d k ha hb hc hd
  rw [walkPairsV_eq k _ _ (by norm_num at hv ⊢; omega)] at hmap
  rw [hmap]
  have hget := flat_pairs_getD j k (fun i => ipv4Value a b c d - (i + 1))
    (fun i => min (ipv4Value a b c d + (i + 1)) 0xffffffff) 0 hj
  refine ⟨?_, ?_, ?_, ?_⟩
  · rw [List.getD_cons_succ]
    exact hget.1
  · rw [show 2 * j + 2 = 2 * j + 1 + 1 by ring, List.getD_cons_succ]
    exact hget.2
  · intro hle
    rw [List.getD_cons_succ, hget.1]
    show ipv4Value a b c d - (j + 1) = 0
    omega
  · intro hge
    rw [show 2 * j + 2 = 2 * j + 1 + 1 by ring, List.getD_cons_succ, hget.2]
    exact Nat.min_eq_right (by omega)

/-- Witness for C10: seed `0.0.0.1` exhausts the down side after one
step and then re-yields `0.0.0.0`; seed `255.255.255.254` exhausts the
up side after one step and then re-yields `255.255.255.255`. -/
theorem claim_C10_boundary_duplicates_witness :
    ((iterateAddr (0, 0, 0, 1) (2 * 3)).map quadVal).getD (2 * 2 + 1) 0 = 0 ∧
    ((iterateAddr (255, 255, 255, 254) (2 * 3)).map quadVal).getD (2 * 2 + 2) 0 =
      0xffffffff :=
  ⟨(claim_C10_boundary_duplicates 0 0 0 1 3 2 (by decide) (by decide) (by decide)
      (by decide) (by decide)).2.2.1 (by decide),
   (claim_C10_boundary_duplicates 255 255 255 254 3 2 (by decide) (by decide) (by decide)
      (by decide) (by decide)).2.2.2 (by decide)⟩

/-! ## CIDR expansion analysis -/

theorem cidrLoop_eq : ∀ (fuel c0 c1 c2 c3 : Nat),
    c0 ≤ 255 → c1 ≤ 255 → c2 ≤ 255 → c3 ≤ 255 →
    cidrLoop fuel c0 c1 c2 c3 =
      (List.range (min fuel (2 ^ 24 - (c1 * 65536 + c2 * 256 + c3)))).map
        (fun i => (c0, (c1 * 65536 + c2 * 256 + c3 + i) / 65536,
                   (c1 * 65536 + c2 * 256 + c3 + i) / 256 % 256,
                   (c1 * 65536 + c2 * 256 + c3 + i) % 256)) := by
  intro fuel
  induction fuel with
  | zero => intro c0 c1 c2 c3 _ _ _ _; simp [cidrLoop]
  | succ f ih =>
    intro c0 c1 c2 c3 hc0 hc1 hc2 hc3
    simp only [cidrLoop]
    have hy : (if c0 ≤ 255 ∧ c1 ≤ 255 ∧ c2 ≤ 255 ∧ c3 ≤ 255
        then [((c0, c1, c2, c3) : Quad)] else []) = [(c0, c1, c2, c3)] :=
      if_pos ⟨hc0, hc1, hc2, hc3⟩
    simp only [hy]
    rw [show min (f + 1) (2 ^ 24 - (c1 * 65536 + c2 * 256 + c3)) =
        min f (2 ^ 24 - (c1 * 65536 + c2 * 256 + c3) - 1) + 1 by omega]
    rw [List.range_succ_eq_map, List.map_cons, List.map_map]
    by_cases h3 : c3 + 1 > 255
    · by_cases h2 : c2 + 1 > 255
      · by_cases h1 : c1 + 1 > 255
        · rw [if_pos h3, if_pos h2, if_pos h1]
          rw [show min f (2 ^ 24 - (c1 * 65536 + c2 * 256 + c3) - 1) = 0 by omega]
          simp only [List.range_zero, List.map_nil, List.cons.injEq, Prod.mk.injEq, and_true]
          exact ⟨trivial, by omega, by omega, by omega⟩
        · rw [if_pos h3, if_pos h2, if_neg h1]
          rw [ih c0 (c1 + 1) 0 0 hc0 (by omega) (by omega) (by omega)]
          rw [show (c1 + 1) * 65536 + 0 * 256 + 0 = c1 * 65536 + c2 * 256 + c3 + 1 by omega]
          rw [show min f (2 ^ 24 - (c1 * 65536 + c2 * 256 + c3 + 1)) =
              min f (2 ^ 24 - (c1 * 65536 + c2 * 256 + c3) - 1) by omega]
          simp only [List.singleton_append, List.cons.injEq, Prod.mk.injEq]
          refine ⟨⟨trivial, by omega, by omega, by omega⟩, ?_⟩
          apply List.map_congr_left
          intro i _
          simp only [Function.comp_apply, Nat.succ_eq_add_one, Prod.mk.injEq]
          exact ⟨trivial, by omega, by omega, by omega⟩
      · rw [if_pos h3, if_neg h2]
        rw [ih c0 c1 (c2 + 1) 0 hc0 hc1 (by omega) (by omega)]
        rw [show c1 * 65536 + (c2 + 1) * 256 + 0 = c1 * 65536 + c2 * 256 + c3 + 1 by omega]
        rw [show min f (2 ^ 24 - (c1 * 65536 + c2 * 256 + c3 + 1)) =
            min f (2 ^ 24 - (c1 * 65536 + c2 * 256 + c3) - 1) by omega]
        simp only [List.singleton_append, List.cons.injEq, Prod.mk.injEq]
        refine ⟨⟨trivial, by omega, by omega, by omega⟩, ?_⟩
        apply List.map_congr_left
        intro i _
        simp only [Function.comp_apply, Nat.succ_eq_add_one, Prod.mk.injEq]
        exact ⟨trivial, by omega, by omega, by omega⟩
    · rw [if_neg h3]
      rw [ih c0 c1 c2 (c3 + 1) hc0 hc1 hc2 (by omega)]
      rw [show c1 * 65536 + c2 * 256 + (c3 + 1) = c1 * 65536 + c2 * 256 + c3 + 1 by omega]
      rw [show min f (2 ^ 24 - (c1 * 65536 + c2 * 256 + c3 + 1)) =
          min f (2 ^ 24 - (c1 * 65536 + c2 * 256 + c3) - 1) by omega]
      simp only [List.singleton_append, List.cons.injEq, Prod.mk.injEq]
      refine ⟨⟨trivial, by omega, by omega, by omega⟩, ?_⟩
      apply List.map_congr_left
      intro i _
      simp only [Function.comp_apply, Nat.succ_eq_add_one, Prod.mk.injEq]
      exact ⟨trivial, by omega, by omega, by omega⟩

/-! ## Claim C1: CIDR expansion member count, order, origin -/

/-- C1 counterexample: the loop never carries into the first octet, so
the aligned CIDR `10.0.0.0/7` expands to `2^24` members (stopping after
`10.255.255.255`), not `2^(32-7) = 2^25`. -/
theorem claim_C1_counterexample :
    (cidrExpand 10 0 0 0 7).length ≠ 2 ^ (32 - 7) := by
  unfold cidrExpand
  rw [if_pos (by norm_num)]
  rw [cidrLoop_eq (2 ^ (32 - 7)) 10 0 0 0 (by norm_num) (by norm_num) (by norm_num) (by norm_num)]
  rw [List.length_map, List.length_range]
  norm_num

/-- C1 (amended): for a valid base address and mask in `[0,32]`, the CIDR
expansion yields exactly `min (2^(32-mask)) (2^24 - (base mod 2^24))`
members — the nominal count capped at the end of the base's first-octet
block — in strictly ascending consecutive numeric order starting at the
base address, each tagged `HostType.CIDR` with the literal CIDR line as
`origin`. -/
theorem claim_C1_cidr_expansion (line : String) (b0 b1 b2 b3 mask : Nat)
    (h0 : b0 ≤ 255) (h1 : b1 ≤ 255) (h2 : b2 ≤ 255) (h3 : b3 ≤ 255) (hm : mask ≤ 32) :
    (cidrHosts line b0 b1 b2 b3 mask).length =
        min (2 ^ (32 - mask)) (2 ^ 24 - (b1 * 65536 + b2 * 256 + b3)) ∧
    (∀ h ∈ cidrHosts line b0 b1 b2 b3 mask, h.origin = line ∧ h.type = HostType.CIDR) ∧
    (cidrExpand b0 b1 b2 b3 mask).map quadVal =
      (List.range (min (2 ^ (32 - mask)) (2 ^ 24 - (b1 * 65536 + b2 * 256 + b3)))).map
        (fun i => ipv4Value b0 b1 b2 b3 + i) := by
  refine ⟨?_, ?_, ?_⟩
  · unfold cidrHosts cidrExpand
    rw [if_pos hm, cidrLoop_eq _ b0 b1 b2 b3 h0 h1 h2 h3]
    rw [List.length_map, List.length_map, List.length_range]
  · intro h hmem
    unfold cidrHosts at hmem
    rw [List.mem_map] at hmem
    obtain ⟨q, _, rfl⟩ := hmem
    exact ⟨rfl, rfl⟩
  · unfold cidrExpand
    rw [if_pos hm, cidrLoop_eq _ b0 b1 b2 b3 h0 h1 h2 h3, List.map_map]
    apply List.map_congr_left
    intro i hi
    rw [List.mem_range] at hi
    simp only [Function.comp_apply]
    show ipv4Value b0 ((b1 * 65536 + b2 * 256 + b3 + i) / 65536)
        ((b1 * 65536 + b2 * 256 + b3 + i) / 256 % 256)
        ((b1 * 65536 + b2 * 256 + b3 + i) % 256) = ipv4Value b0 b1 b2 b3 + i
    rw [ipv4Value_eq h0 (by omega) (by omega) (by omega), ipv4Value_eq h0 h1 h2 h3]
    omega

/-- Witness for C1 (amended) at `10.0.0.0/30`. -/
theorem claim_C1_cidr_expansion_witness :
    (cidrHosts "10.0.0.0/30" 10 0 0 0 30).length =
        min (2 ^ (32 - 30)) (2 ^ 24 - (0 * 65536 + 0 * 256 + 0)) ∧
    (∀ h ∈ cidrHosts "10.0.0.0/30" 10 0 0 0 30,
      h.origin = "10.0.0.0/30" ∧ h.type = HostType.CIDR) ∧
    (cidrExpand 10 0 0 0 30).map quadVal =
      (List.range (min (2 ^ (32 - 30)) (2 ^ 24 - (0 * 65536 + 0 * 256 + 0)))).map
        (fun i => ipv4Value 10 0 0 0 + i) :=
  claim_C1_cidr_expansion "10.0.0.0/30" 10 0 0 0 30 (by decide) (by decide) (by decide)
    (by decide) (by decide)

/-! ## Claim C5: mixed finite line source -/

/-- C5: a five-line source with one valid IP, one valid `/30` CIDR, one
malformed `/33` CIDR, one valid domain token and one invalid token yields
exactly `1 + 4 + 0 + 1 + 0 = 6` targets and one warning: the malformed
CIDR is skipped silently (no warning), the invalid token yields nothing
but warns, and enumeration continues to the end. -/
theorem claim_C5_line_source :
    (iterate ["1.1.1.1", "10.0.0.0/30", "10.0.0.0/33", "example.com", "bad!token"] true).1.length = 6 ∧
    (iterate ["1.1.1.1", "10.0.0.0/30", "10.0.0.0/33", "example.com", "bad!token"] true).2 = 1 ∧
    (processLine "1.1.1.1" true).1.length = 1 ∧ (processLine "1.1.1.1" true).2 = false ∧
    (processLine "10.0.0.0/30" true).1.length = 4 ∧ (processLine "10.0.0.0/30" true).2 = false ∧
    processLine "10.0.0.0/33" true = ([], false) ∧
    (processLine "example.com" true).1.length = 1 ∧ (processLine "example.com" true).2 = false ∧
    processLine "bad!token" true = ([], true) := by decide

/-! ## Claim C7: IPv6 expansion and re-serialization round trip -/

/-- C7: `expandIPv6 "2001:db8::1"` is the fully expanded zero-padded
8-group form, and re-serializing its value compresses the longest run of
zero groups back to exactly `"2001:db8::1"`; on a tie between two
equally long zero runs the first is compressed, and single zero groups
are never compressed. -/
theorem claim_C7_ipv6_roundtrip :
    expandIPv6 "2001:db8::1" = "2001:0db8:0000:0000:0000:0000:0000:0001" ∧
    bigIntToIPv6 0x20010db8000000000000000000000001 = "2001:db8::1" ∧
    bigIntToIPv6 0x00010000000000010000000000010001 = "1::1:0:0:1:1" ∧
    bigIntToIPv6 0x00010000000100010001000100010001 = "1:0:1:1:1:1:1:1" := by decide

/-! ## Claim C6: every probe failure path degrades to NONE -/

/-- C6: `scanTLS` returns NONE exactly on the failure paths — DNS
resolution failure, connect failure or timeout, handshake failure or
timeout, missing certificate, missing certificate subject — and a
rejected promise inside the `try` block is converted to NONE by the
`catch`, never propagated to the caller. -/
theorem claim_C6_probe_failure_paths :
    ∀ (env : ScanEnv) (host : Host),
      (scanTLS env host = none ↔
        ((host.ip = none ∧ env.dnsResult = none) ∨ env.connectOk = false ∨
          env.handshakeResult = none ∨
          (∃ hs, env.handshakeResult = some hs ∧
            (hs.cert = none ∨ ∃ cert, hs.cert = some cert ∧ cert.subject = none)))) ∧
      (∀ e, scanTLSBody env host = Except.error e → scanTLS env host = none) := by
  intro env host
  constructor
  · cases hip : host.ip with
    | none =>
      cases hdns : env.dnsResult with
      | none => simp [scanTLS, scanTLSBody, hip, hdns]
      | some ip =>
        cases hco : env.connectOk with
        | false => simp [scanTLS, scanTLSBody, hip, hdns, hco]
        | true =>
          cases hhs : env.handshakeResult with
          | none => simp [scanTLS, scanTLSBody, hip, hdns, hco, hhs]
          | some hs =>
            cases hcert : hs.cert with
            | none => simp [scanTLS, scanTLSBody, hip, hdns, hco, hhs, hcert]
            | some cert =>
              cases hsubj : cert.subject with
              | none => simp [scanTLS, scanTLSBody, hip, hdns, hco, hhs, hcert, hsubj]
              | some subj => simp [scanTLS, scanTLSBody, hip, hdns, hco, hhs, hcert, hsubj]
    | some ip =>
      cases hco : env.connectOk with
      | false => simp [scanTLS, scanTLSBody, hip, hco]
      | true =>
        cases hhs : env.handshakeResult with
        | none => simp [scanTLS, scanTLSBody, hip, hco, hhs]
        | some hs =>
          cases hcert : hs.cert with
          | none => simp [scanTLS, scanTLSBody, hip, hco, hhs, hcert]
          | some cert =>
            cases hsubj : cert.subject with
            | none => simp [scanTLS, scanTLSBody, hip, hco, hhs, hcert, hsubj]
            | some subj => simp [scanTLS, scanTLSBody, hip, hco, hhs, hcert, hsubj]
  · intro e he
    unfold scanTLS
    rw [he]

/-- Witness for C6: a probe whose TCP connect fails rejects inside the
`try` block and `scanTLS` returns NONE. -/
theorem claim_C6_probe_failure_paths_witness :
    scanTLS
      { dnsResult := none, connectOk := false,
        handshakeResult := none, geo := fun _ => "N/A" }
      { ip := some "1.2.3.4", origin := "1.2.3.4", type := HostType.IP } = none :=
  (claim_C6_probe_failure_paths
      { dnsResult := none, connectOk := false,
        handshakeResult := none, geo := fun _ => "N/A" }
      { ip := some "1.2.3.4", origin := "1.2.3.4", type := HostType.IP }).2
    "connection failed" rfl

/-! ## Claim C8: output record format -/

/-- C8: `formatScanResult` returns the empty string for every
non-feasible result and the exact comma-joined line (issuer quoted, one
trailing newline) for every feasible one; every line the worker loop
appends below the `IP,ORIGIN,CERT_DOMAIN,CERT_ISSUER,GEO_CODE` header
comes from a feasible result. -/
theorem claim_C8_output_format :
    (∀ r : TLSScanResult, r.feasible = false → formatScanResult r = "") ∧
    (∀ r : TLSScanResult, r.feasible = true →
      formatScanResult r =
        r.ip ++ "," ++ r.origin ++ "," ++ r.domain ++ ",\"" ++ r.issuer ++ "\"," ++
          r.geoCode ++ "\n") ∧
    (∀ (results : List (Option TLSScanResult)) (line : String),
      line ∈ workerLines results →
      ∃ r : TLSScanResult, some r ∈ results ∧ r.feasible = true ∧
        line = formatScanResult r) ∧
    (∀ results, outputFileContents results =
      "IP,ORIGIN,CERT_DOMAIN,CERT_ISSUER,GEO_CODE\n" ++ String.join (workerLines results)) := by
  refine ⟨?_, ?_, ?_, ?_⟩
  · intro r h
    simp [formatScanResult, h]
  · intro r h
    simp [formatScanResult, h]
  · intro results line hmem
    unfold workerLines at hmem
    rw [List.mem_filterMap] at hmem
    obtain ⟨r?, hr, heq⟩ := hmem
    cases r? with
    | none => simp at heq
    | some r =>
      by_cases hf : r.feasible = true
      · refine ⟨r, hr, hf, ?_⟩
        simp only [hf, if_true] at heq
        split_ifs at heq with hne
        injection heq with heq
        exact heq.symm
      · simp only [Bool.not_eq_true] at hf
        simp [hf] at heq
  · intro results
    rfl

/-- Witness for C8 at concrete feasible and non-feasible results. -/
theorem claim_C8_output_format_witness :
    formatScanResult
        { ip := "1.2.3.4", origin := "1.2.3.4", domain := "example.com",
          issuer := "DigiCert", geoCode := "US", feasible := false,
          tlsVersion := "TLSv1.2", alpn := "h2" } = "" ∧
    formatScanResult
        { ip := "1.2.3.4", origin := "1.2.3.4", domain := "example.com",
          issuer := "DigiCert", geoCode := "US", feasible := true,
          tlsVersion := "TLSv1.3", alpn := "h2" } =
      "1.2.3.4" ++ "," ++ "1.2.3.4" ++ "," ++ "example.com" ++ ",\"" ++ "DigiCert" ++
        "\"," ++ "US" ++ "\n" ∧
    (∃ r : TLSScanResult,
      some r ∈ [some
        { ip := "1.2.3.4", origin := "1.2.3.4", domain := "example.com",
          issuer := "DigiCert", geoCode := "US", feasible := true,
          tlsVersion := "TLSv1.3", alpn := "h2" }] ∧ r.feasible = true ∧
      "1.2.3.4,1.2.3.4,example.com,\"DigiCert\",US\n" = formatScanResult r) :=
  ⟨claim_C8_output_format.1 _ rfl,
   claim_C8_output_format.2.1 _ rfl,
   claim_C8_output_format.2.2.1 _ _ (by decide)⟩
